import Mathlib

/-!
Verification development for the `layout_renderer` module of the inkyframe
repository (`src/layout_renderer.py`).

The module is shallowly embedded:

* Text metrics are modelled by explicit width / height functions
  `String → Nat` (PIL's `draw.textbbox` measurements are abstract inputs to
  every algorithm in the source, so they are parameters of the embedding).
* Python strings are Lean `String`s; `str.split()` / `str.strip()` /
  `" ".join` are re-implemented over `List Char` below.
* Python code that can raise an exception is modelled in
  `Except String α`; a `try/except` in the source becomes a `match` on the
  `Except` value.
* Machine integers: every quantity in the source is a small Python `int`;
  places where a Python subtraction can go negative are either guarded by
  the same comparison as the source (`max_text_width < 8`) or fed into
  `max` with a positive floor, so `Nat` with truncated subtraction agrees
  with the source on all paths (noted at each definition).
-/

deriving instance DecidableEq for Except

namespace Inkyframe

/-! ### Python string helpers -/

/-- Model of Python `str.strip()`: remove leading and trailing whitespace. -/
def pyStrip (s : String) : String :=
  ⟨((s.data.dropWhile Char.isWhitespace).reverse.dropWhile Char.isWhitespace).reverse⟩

/-- Auxiliary for `pySplit`: accumulate the current word (reversed). -/
def pySplitAux : List Char → List Char → List String
  | [], acc => if acc.isEmpty then [] else [⟨acc.reverse⟩]
  | c :: cs, acc =>
    if c.isWhitespace then
      if acc.isEmpty then pySplitAux cs [] else ⟨acc.reverse⟩ :: pySplitAux cs []
    else
      pySplitAux cs (c :: acc)

/-- Model of Python `str.split()` (no argument): split on runs of
whitespace, discarding empty fragments. -/
def pySplit (s : String) : List String :=
  pySplitAux s.data []

/-- Model of Python `" ".join(ws)`. -/
def pyJoinSpace : List String → String
  | [] => ""
  | [w] => w
  | w :: ws => w ++ " " ++ pyJoinSpace ws

/-- Model of Python `a or b` for an optional string field of an event dict:
`None` and `""` are falsy. -/
def pyOrStr (a : Option String) (b : String) : String :=
  match a with
  | none => b
  | some s => if s = "" then b else s

/-- Model of Python `a or b` for an optional integer field: `None` and `0`
are falsy. -/
def pyOrNat (a : Option Nat) (b : Nat) : Nat :=
  match a with
  | none => b
  | some n => if n = 0 then b else n

/-! ### Text metrics (`_ellipsize`, `_wrap_text_to_lines`)

`widthF : String → Nat` stands for `_text_width(draw, ·, font)`: the pixel
width reported by the font, an abstract input of the algorithm. -/

/-- The ellipsis character appended by `_ellipsize` (source line 335). -/
def ellStr : String := "…"

/-- The trimming loop of `_ellipsize` (source lines 336-341): repeatedly
drop the final character of `t` and return `t + "…"` as soon as it fits;
once `t` is exhausted return the bare ellipsis.  To obtain structural
recursion the remaining text is carried in REVERSED character order
(`csRev`), so dropping the final character is dropping the head; the
fragment tested each round is `csRev.tail.reverse`, i.e. the source's
`t[:-1]`. -/
def ellipsizeLoop (widthF : String → Nat) (maxWidth : Nat) : List Char → String
  | [] => ellStr
  | _ :: restRev =>
    if widthF (String.mk restRev.reverse ++ ellStr) ≤ maxWidth then
      String.mk restRev.reverse ++ ellStr
    else ellipsizeLoop widthF maxWidth restRev

/-- Embedding of `_ellipsize(draw, text, font, max_width)`
(source lines 330-341). -/
def ellipsizeFn (widthF : String → Nat) (text : String) (maxWidth : Nat) : String :=
  if widthF text ≤ maxWidth then text
  else ellipsizeLoop widthF maxWidth text.data.reverse

/-- Character-by-character hard break of a single over-wide word: the inner
`for ch in s` loop of `_wrap_text_to_lines` (source lines 514-524).  The
state `piece` is the current fragment; completed fragments are emitted in
order, the final non-empty fragment included. -/
def hardBreakAux (widthF : String → Nat) (maxWidth : Nat) :
    List Char → List Char → List String
  | [], piece => if piece.isEmpty then [] else [⟨piece⟩]
  | ch :: rest, piece =>
    if widthF (String.mk (piece ++ [ch])) ≤ maxWidth then
      hardBreakAux widthF maxWidth rest (piece ++ [ch])
    else if piece.isEmpty then
      hardBreakAux widthF maxWidth rest [ch]
    else
      String.mk piece :: hardBreakAux widthF maxWidth rest [ch]

/-- All fragments produced by hard-breaking word `w`. -/
def hardBreak (widthF : String → Nat) (maxWidth : Nat) (w : String) : List String :=
  hardBreakAux widthF maxWidth w.data []

/-- The word loop of `_wrap_text_to_lines` (source lines 504-527).  State:
committed `lines` and the current line `cur`.  After processing a word the
loop breaks as soon as `len(lines) >= max_lines`.  NOTE (faithful to the
source): on overflow of a non-empty current line the source commits `cur`
and sets `cur = ""` — the overflowing word is discarded, it does not start
the next line. -/
def wrapLoop (widthF : String → Nat) (maxWidth maxLines : Nat) :
    List String → List String → String → List String × String
  | [], lines, cur => (lines, cur)
  | w :: ws, lines, cur =>
    let candidate := if cur = "" then w else pyStrip (cur ++ " " ++ w)
    let next : List String × String :=
      if widthF candidate ≤ maxWidth then (lines, candidate)
      else if cur = "" then (lines ++ hardBreak widthF maxWidth w, "")
      else (lines ++ [cur], "")
    if maxLines ≤ next.1.length then next
    else wrapLoop widthF maxWidth maxLines ws next.1 next.2

/-- Embedding of `_wrap_text_to_lines(draw, text, font, max_width,
max_lines)` (source lines 493-537).  The final `lines[-1]` lookup of the
source raises `IndexError` when `lines` is empty (reachable for
`max_lines = 0` and non-empty text); this is the `Except.error` case. -/
def wrapTextToLines (widthF : String → Nat) (text : String)
    (maxWidth maxLines : Nat) : Except String (List String) :=
  if text = "" then .ok []
  else
    let st := wrapLoop widthF maxWidth maxLines (pySplit text) [] ""
    let lines1 := if st.2 ≠ "" ∧ st.1.length < maxLines then st.1 ++ [st.2] else st.1
    let lines2 := if maxLines < lines1.length then lines1.take maxLines else lines1
    if lines2.length = maxLines then
      match lines2.getLast? with
      | none => .error ("IndexError")
      | some last =>
        if maxWidth < widthF last then
          .ok (lines2.dropLast ++ [ellipsizeFn widthF last maxWidth])
        else .ok lines2
    else .ok lines2

/-! ### Event records and fonts -/

/-- Opaque text metrics of the two fonts handed to the measurement and
rendering helpers.  `wF`/`hF` are width and `textbbox` height under `font`,
`wS`/`hS` under `small_font`; `fontSize` is `getattr(font, "size", 12)`. -/
structure FontCtx where
  wF : String → Nat
  hF : String → Nat
  wS : String → Nat
  hS : String → Nat
  fontSize : Nat

/-- The layout parameters shared by `_measure_row_height` and
`render_events_section`: `event_vspacing`, `min_icon_padding`, the inner
text width (`inner_text_width` resp. `width`), `event_icon_slot`,
`icon_gap` and `max_event_lines`. -/
structure RowParams where
  vspacing : Nat
  minIconPadding : Nat
  innerW : Nat
  iconSlot : Nat
  iconGap : Nat
  maxEventLines : Nat

/-- One element of an event's `tags` list.  The source expects a dict and
calls `t.get("text")` on it; `notDict` stands for any non-dict value
(an int, a string, ...), on which `.get` raises `AttributeError`. -/
inductive TagEntry where
  | entry (text : Option String)
  | notDict
deriving DecidableEq

/-- An event dict restricted to the keys the row measurer and row renderer
read.  `Option` is Python `None`/missing key. -/
structure EventRec where
  date : Option String := none
  display_text : Option String := none
  name : Option String := none
  time : Option String := none
  icon_size : Option Nat := none
  icon_size_px : Option Nat := none
  tags : List TagEntry := []
  tag_text : Option String := none

/-- Split on the comma character, keeping empty fragments
(Python `rawt.split(",")`). -/
def pySplitCommaAux : List Char → List Char → List String
  | [], acc => [⟨acc.reverse⟩]
  | c :: cs, acc =>
    if c = ',' then ⟨acc.reverse⟩ :: pySplitCommaAux cs []
    else pySplitCommaAux cs (c :: acc)

/-- Python `[p.strip() for p in rawt.split(",") if p.strip()]`. -/
def commaParts (raw : String) : List String :=
  ((pySplitCommaAux raw.data []).map pyStrip).filter (fun p => p ≠ "")

/-- The shared legacy-tag construction of `_measure_row_height`
(source lines 741-754) and `render_events_section` (lines 1075-1086):
prefer the structured `tags` list; otherwise split `tag_text` on commas.
The capitalized-word regex fallback of the source is unreachable: `parts`
is empty only when the stripped `tag_text` contains no letters at all, in
which case the regex finds nothing either, so the result is `[]` exactly
as modelled here. -/
def legacyTags (ev : EventRec) : List TagEntry :=
  if ev.tags ≠ [] then ev.tags
  else
    match pyOrStr ev.tag_text ("") with
    | "" => []
    | raw => (commaParts (pyStrip raw)).map (fun p => TagEntry.entry (some p))

/-- The first-line tag-chip reservation loop, identical in
`_measure_row_height` (source lines 762-780) and `render_events_section`
(lines 1092-1109): chips are accumulated while the running total stays
within half the available width; a non-dict entry raises.  `halfAvail` is
`text_avail // 2` resp. `max_text_width // 2`. -/
def tagChipLoop (wS : String → Nat) (halfAvail : Nat) :
    List TagEntry → Nat → Nat → Except String Nat
  | [], total, _ => .ok total
  | t :: ts, total, count =>
    match t with
    | .notDict => .error ("AttributeError")
    | .entry txt =>
      let s := pyStrip (txt.getD (""))
      if s = "" then tagChipLoop wS halfAvail ts total count
      else
        let chipW := wS s + 16
        if halfAvail < total + chipW + (if 0 < count then 8 else 0) then .ok total
        else tagChipLoop wS halfAvail ts (total + (if 0 < count then 8 else 0) + chipW) (count + 1)

/-- Total first-line reservation for tags: the chip total (clamped to half
the available width, a no-op safety net kept from the source) plus the 6px
gap in front of the chips when any chip was reserved. -/
def tagsReserved (wS : String → Nat) (tags : List TagEntry) (avail : Nat) :
    Except String Nat :=
  match tagChipLoop wS (avail / 2) tags 0 0 with
  | .error e => .error e
  | .ok total =>
    let t := if avail / 2 < total then avail / 2 else total
    .ok (if 0 < t then t + 6 else t)

/-- The greedy first-line loop shared by `_measure_row_height`
(source lines 794-799) and `render_events_section` (lines 1121-1127):
extend the first line while it fits `nameMax`; on the first overflow the
current word and all following words become the rest text. -/
def firstLineGo (wF : String → Nat) (nameMax : Nat) :
    List String → String → String × String
  | [], fl => (fl, "")
  | w :: ws, fl =>
    let cand := if fl = "" then w else pyStrip (fl ++ " " ++ w)
    if wF cand ≤ nameMax then firstLineGo wF nameMax ws cand
    else (fl, pyJoinSpace (w :: ws))

/-- First line and rest text, including the fallback of both call sites
(source lines 802-804 and 1128-1130): when even the first word overflows,
the first line becomes the ellipsized first word and the rest is the
remaining words. -/
def firstLineSplit (wF : String → Nat) (nameMax : Nat) (words : List String) :
    String × String :=
  let r := firstLineGo wF nameMax words ("")
  if r.1 = "" then
    match words with
    | [] => r
    | w0 :: ws => (ellipsizeFn wF w0 nameMax, pyJoinSpace ws)
  else r

/-- Per-line `textbbox` heights (empty lines are measured as `"X"`),
shared by source lines 817-823 and 1156-1162. -/
def lineHeightsOf (hF : String → Nat) (lines : List String) : List Nat :=
  lines.map (fun ln => hF (if ln = "" then "X" else ln))

/-! ### `_measure_row_height` (source lines 706-843) -/

/-- Embedding of `_measure_row_height(event, nominal_vspacing,
min_icon_padding, draw, font, small_font, inner_text_width,
event_icon_slot, icon_gap, max_event_lines)`.  Python subtractions that
can go negative (`inner_text_width - left_reserved`,
`text_avail - reserved_for_tags`) are immediately floored by `max 8 ·` in
the source, so `Nat` truncated subtraction agrees. -/
def measureRowHeight (ctx : FontCtx) (p : RowParams) (ev : EventRec) :
    Except String Nat := do
  let requestedIconSize := pyOrNat ev.icon_size (pyOrNat ev.icon_size_px (max 12 (p.iconSlot - 4)))
  let baseRow := max p.vspacing (requestedIconSize + p.minIconPadding)
  let time := pyOrStr ev.time ("")
  let timeW := if time ≠ "" then ctx.wS time else 0
  let leftReserved := p.iconSlot + p.iconGap + (if timeW ≠ 0 then timeW + 6 else 0)
  let textAvail := max 8 (p.innerW - leftReserved)
  let name := pyOrStr ev.display_text (pyOrStr ev.name (""))
  let reservedForTags ← tagsReserved ctx.wS (legacyTags ev) textAvail
  let nameMax := max 8 (textAvail - reservedForTags)
  let fl := firstLineSplit ctx.wF nameMax (pySplit name)
  let remaining ←
    if fl.2 ≠ "" then wrapTextToLines ctx.wF fl.2 (max 8 textAvail) (p.maxEventLines - 1)
    else .ok []
  let lines := fl.1 :: remaining
  let lineHeights := lineHeightsOf ctx.hF lines
  let spacing := max 2 (lineHeights.headD ctx.fontSize * 12 / 100)
  let totalTextH := lineHeights.sum +
    (if 1 < lineHeights.length then spacing * (lineHeights.length - 1) else 0)
  let chipHEst := max 10 (ctx.hS ("X") + 6)
  .ok (max baseRow (max (totalTextH + p.minIconPadding) (chipHEst + p.minIconPadding)))

/-! ### The draw pass of one event row (source lines 988-1218)

Only the control flow that determines the vertical cursor advance (and the
exceptions it can raise) is modelled; the pixel-painting calls
(`draw.text`, `image.paste`, the dotted separator) do not influence
`cursor_y` and cannot change the result. -/

/-- Vertical advance (`row_h`) applied to `cursor_y` by one iteration of
the event loop in `render_events_section`.  `p.innerW` is the `width`
argument of the call.  The source computes
`max_text_width = width - (name_x - x) - 8`; a negative value trips the
same `if max_text_width < 8` early-advance as `Nat` truncation does. -/
def renderRowAdvance (ctx : FontCtx) (p : RowParams) (ev : EventRec) :
    Except String Nat := do
  let name := pyOrStr ev.display_text (pyOrStr ev.name (""))
  let time := pyOrStr ev.time ("")
  let requestedIconSize := pyOrNat ev.icon_size (pyOrNat ev.icon_size_px (max 12 (p.iconSlot - 4)))
  let lineHeight := max p.vspacing (requestedIconSize + p.minIconPadding)
  let nameOff := p.iconSlot + p.iconGap + (if time ≠ "" then ctx.wS time + 6 else 0)
  let maxTextWidth := p.innerW - nameOff - 8
  if maxTextWidth < 8 then .ok lineHeight
  else do
    let reservedForTags ← tagsReserved ctx.wS (legacyTags ev) maxTextWidth
    let nameMax := max 8 (maxTextWidth - reservedForTags)
    let fl := firstLineSplit ctx.wF nameMax (pySplit name)
    let remaining ←
      if fl.2 ≠ "" then wrapTextToLines ctx.wF fl.2 maxTextWidth (p.maxEventLines - 1)
      else .ok []
    let lines := fl.1 :: remaining
    let spacing := max 2 (ctx.hF ("X") * 12 / 100)
    let lineHeights := lineHeightsOf ctx.hF lines
    let totalTextH := lineHeights.sum +
      (if 1 < lines.length then spacing * (lines.length - 1) else 0)
    let chipHEst := max 10 (ctx.hS ("X") + 6)
    let totalRowH := max lineHeight (max (totalTextH + p.minIconPadding) (chipHEst + p.minIconPadding))
    .ok (max lineHeight totalRowH)

/-- Cursor position returned by `render_events_section(image, x, y, width,
events, ...)`: the vertical advances of all rows added to `y`.  Any
exception raised while processing a row propagates (the event loop of the
source has no handler around the tag-measurement and wrapping code). -/
def renderEventsSectionCursor (ctx : FontCtx) (p : RowParams) :
    List EventRec → Nat → Except String Nat
  | [], cy => .ok cy
  | ev :: evs, cy =>
    match renderRowAdvance ctx p ev with
    | .error e => .error e
    | .ok h => renderEventsSectionCursor ctx p evs (cy + h)

/-! ### `_measure_box_height_for_date` (source lines 226-269) -/

/-- Embedding of `_measure_box_height_for_date`: header plus paddings plus
the measured height of every row, where a row whose measurement raises is
replaced by the conservative fallback
`max(event_vspacing, font.size + min_icon_padding)`; the total is floored
at `min_box_height`. -/
def measureBoxHeightForDate (ctx : FontCtx) (p : RowParams)
    (boxHeaderHeight topPadding bottomPadding minBoxHeight : Nat)
    (events : List EventRec) : Nat :=
  let base := boxHeaderHeight + topPadding + bottomPadding
  if events.isEmpty then max minBoxHeight base
  else
    let total := events.foldl
      (fun acc ev =>
        acc + match measureRowHeight ctx p ev with
          | .ok h => h
          | .error _ => max p.vspacing (ctx.fontSize + p.minIconPadding))
      base
    max minBoxHeight total

/-! ### `render_calendar` (source lines 1221-1647): grouping, ordering,
column packing and the draw pass over placed day-boxes -/

/-- The `renderer_opts` keys of `render_calendar` that the modelled slice
reads, with the defaults of source lines 1225-1258. -/
structure RenderOpts where
  event_vspacing : Nat := 14
  min_box_height : Nat := 48
  columns : Nat := 2
  grid_gap : Nat := 5
  box_header_height : Nat := 26
  min_icon_padding : Nat := 4
  box_top_padding : Nat := 8
  box_bottom_padding : Nat := 8
  event_icon_slot : Nat := 20
  icon_gap : Nat := 6
  max_event_lines : Nat := 2

/-- The grouping key `ev.get("date", "unknown")` (source line 486). -/
def eventDate (ev : EventRec) : String := ev.date.getD ("unknown")

/-- The keys of `_group_events_by_date` in dict insertion order, i.e.
first-appearance order (source lines 483-488). -/
def groupKeys (events : List EventRec) : List String :=
  events.foldl (fun ks ev => if eventDate ev ∈ ks then ks else ks ++ [eventDate ev]) []

/-- The group of one date: all events carrying that date, in input order
(the list a date key maps to in `_group_events_by_date`). -/
def groupGet (events : List EventRec) (d : String) : List EventRec :=
  events.filter (fun ev => eventDate ev = d)

/-- Embedding of `ordered_dates = sorted(groups.keys())[:days]` (source line 1355):
the lexicographically sorted date keys, truncated to the first `days`. -/
def orderedDates (events : List EventRec) (days : Nat) : List String :=
  (List.insertionSort (fun a b : String => a ≤ b) (groupKeys events)).take days

/-- Grid box width `box_w = (width - margin_x*2 - (columns-1)*gap) //
columns` (source line 1360, with `margin_x = 3`). -/
def boxWidth (width : Nat) (opts : RenderOpts) : Nat :=
  (width - 6 - (opts.columns - 1) * opts.grid_gap) / opts.columns

/-- Column x position `col_x_positions[c]` (source line 1375, with
`margin_x = 3`). -/
def colX (width : Nat) (opts : RenderOpts) (c : Nat) : Nat :=
  3 + c * (boxWidth width opts + opts.grid_gap)

/-- The `RowParams` with which `render_calendar` invokes both the measure
pass and the draw pass: `inner_w = box_w - 16` (source lines 1364, 1620). -/
def rowParamsOf (width : Nat) (opts : RenderOpts) : RowParams :=
  { vspacing := opts.event_vspacing
    minIconPadding := opts.min_icon_padding
    innerW := boxWidth width opts - 16
    iconSlot := opts.event_icon_slot
    iconGap := opts.icon_gap
    maxEventLines := opts.max_event_lines }

/-- One day-box recorded in `placements`: the source stores
`placements[d] = (col_x_positions[col], y, h)`; the column index is kept
explicitly here and the x coordinate is recovered through `colX`. -/
structure Placement where
  date : String
  col : Nat
  y : Nat
  h : Nat
deriving DecidableEq

/-- State of the packing loop (source lines 1373-1397): per-column running
tops, the current column pointer, and the placements made so far in
processing order. -/
structure PlaceState where
  tops : List Nat
  cur : Nat
  placed : List Placement
deriving DecidableEq

/-- The inner `for col_try in range(current_col, columns)` scan
(source lines 1384-1392), with the remaining iteration count
`columns - current_col` as structural fuel: the first column index `c`
with `col_tops[c] + h <= bottom_limit`, or `none`. -/
def colScanAux (tops : List Nat) (h limit : Nat) : Nat → Nat → Option Nat
  | _, 0 => none
  | c, rem + 1 =>
    if tops.getD c 0 + h ≤ limit then some c
    else colScanAux tops h limit (c + 1) rem

/-- Scan for the first fitting column from `cur` (inclusive) up to
`columns` (exclusive). -/
def colScan (tops : List Nat) (h limit cur columns : Nat) : Option Nat :=
  colScanAux tops h limit cur (columns - cur)

/-- One iteration of the packing loop for date `d` with measured box
height `h`: place in the first fitting column from the current one
rightward, advancing that column's top by `h + gap` and the pointer to
that column; with no fitting column the date is skipped and the state is
unchanged (source lines 1380-1397). -/
def placeStep (limit gap columns : Nat) (st : PlaceState) (dh : String × Nat) :
    PlaceState :=
  match colScan st.tops dh.2 limit st.cur columns with
  | none => st
  | some c =>
    { tops := st.tops.set c (st.tops.getD c 0 + dh.2 + gap)
      cur := c
      placed := st.placed ++ [⟨dh.1, c, st.tops.getD c 0, dh.2⟩] }

/-- The packing loop over all ordered dates. -/
def placeFold (limit gap columns : Nat) (l : List (String × Nat))
    (st : PlaceState) : PlaceState :=
  l.foldl (placeStep limit gap columns) st

/-- The initial packing state: every column top at `margin_y = 3`
(source lines 1377-1378). -/
def initPlaceState (opts : RenderOpts) : PlaceState :=
  ⟨List.replicate opts.columns 3, 0, []⟩

/-- The `placements` computed by `render_calendar(data, width, height,
days, opts)` for a given event list: measured box heights for the ordered
dates packed into the column grid with `bottom_limit = height - 3`
(source lines 1354-1397). -/
def renderCalendarPlacements (ctx : FontCtx) (events : List EventRec)
    (width height days : Nat) (opts : RenderOpts) : List Placement :=
  let rp := rowParamsOf width opts
  let dh := (orderedDates events days).map fun d =>
    (d, measureBoxHeightForDate ctx rp opts.box_header_height
          opts.box_top_padding opts.box_bottom_padding opts.min_box_height
          (groupGet events d))
  (placeFold (height - 3) opts.grid_gap opts.columns dh (initPlaceState opts)).placed

/-- Embedding of `evs = sorted(evs, key=lambda e: e.get("time") or "")`
(source line 1625): stable sort of a day's events by time key. -/
def sortByTime (evs : List EventRec) : List EventRec :=
  List.insertionSort (fun a b => pyOrStr a.time ("") ≤ pyOrStr b.time ("")) evs

/-- The draw pass over the placed day-boxes (source lines 1399-1645),
restricted to its exception behavior: for each placement, the day's events
are sorted by time and rendered through `render_events_section` starting
at `inner_y = y + box_header_height + top_padding`; any exception raised
there propagates out of `render_calendar` (the call at source line 1631
has no handler). -/
def renderCalendarDraw (ctx : FontCtx) (rp : RowParams) (opts : RenderOpts)
    (events : List EventRec) : List Placement → Except String Unit
  | [] => .ok ()
  | pl :: pls =>
    let evs := sortByTime (groupGet events pl.date)
    let r : Except String Nat :=
      if evs.isEmpty then .ok 0
      else renderEventsSectionCursor ctx rp evs
        (pl.y + opts.box_header_height + opts.box_top_padding)
    match r with
    | .error e => .error e
    | .ok _ => renderCalendarDraw ctx rp opts events pls

/-- Exception behavior of a whole `render_calendar` call: measure pass,
packing, then the draw pass.  `.ok ()` is a returned bitmap, `.error` an
exception reaching the caller. -/
def renderCalendarExc (ctx : FontCtx) (events : List EventRec)
    (width height days : Nat) (opts : RenderOpts) : Except String Unit :=
  renderCalendarDraw ctx (rowParamsOf width opts) opts events
    (renderCalendarPlacements ctx events width height days opts)

/-! ### Icon tinting (`_normalize_color_input`, `_tint_icon_to_color`,
and the event-icon branch of `render_events_section`) -/

/-- A pixel: red, green, blue, alpha. -/
structure Pixel where
  r : Nat
  g : Nat
  b : Nat
  a : Nat
deriving DecidableEq

/-- A bitmap, modelled as its sequence of pixels. -/
def Bitmap := List Pixel

/-- The inputs `_normalize_color_input` accepts (source lines 381-402):
`None`, an int (greyscale, clamped to 0..255), a 3+-tuple, or a color-name
string resolved through `ImageColor.getrgb` — the latter is an external
PIL table, supplied here as `resolveName` (`none` = `getrgb` raises, in
which case the source returns black). -/
inductive ColorInput where
  | noneCol
  | int (n : Nat)
  | rgb (r g b : Nat)
  | name (s : String)

/-- Embedding of `_normalize_color_input(col)`. -/
def normalizeColorInput (resolveName : String → Option (Nat × Nat × Nat)) :
    ColorInput → Nat × Nat × Nat
  | .noneCol => (0, 0, 0)
  | .int n => let c := min 255 n; (c, c, c)
  | .rgb r g b => (r, g, b)
  | .name s => (resolveName s).getD (0, 0, 0)

/-- Embedding of `_tint_icon_to_color(icon_im, color)` (source lines
405-420): every pixel's RGB is replaced by the normalized color while the
pixel's original alpha is kept (`solid.putalpha(alpha)`). -/
def tintIconToColor (resolveName : String → Option (Nat × Nat × Nat))
    (icon : Bitmap) (color : ColorInput) : Bitmap :=
  let c := normalizeColorInput resolveName color
  icon.map (fun p => ⟨c.1, c.2.1, c.2.2, p.a⟩)

/-- The bitmap drawn for an event's icon by `render_events_section`
(source lines 1041-1045): `icon_to_draw = _tint_icon_to_color(
icon_prepared, (0, 0, 0))`.  `evColorRgb` is the per-event color computed
at source lines 995-1007 from `icon_color_rgb` / `icon_color_name` /
`color`, and `tintEventIcons` the `tint_event_icons` option — both are in
scope at the call site and both are ignored by it. -/
def eventIconToDraw (resolveName : String → Option (Nat × Nat × Nat))
    (prepared : Bitmap) (evColorRgb : Option (Nat × Nat × Nat))
    (tintEventIcons : Bool) : Bitmap :=
  tintIconToColor resolveName prepared (.rgb 0 0 0)

/-! ### Relative luminance and foreground choice (`_fg_for_bg`,
source lines 542-598)

The source computes with Python floats; the embedding uses `ℝ`, the
standard idealization (the comparisons involved are far from the float
rounding error at every input of interest). -/

/-- sRGB linearization of one channel already scaled to `[0,1]`
(the inner `rl` of `_fg_for_bg`, source lines 581-583). -/
noncomputable def srgbLinear (v : ℝ) : ℝ :=
  if v ≤ 0.03928 then v / 12.92 else ((v + 0.055) / 1.055) ^ (2.4 : ℝ)

/-- Linearized channel value of an 8-bit component. -/
noncomputable def rlChan (c : ℕ) : ℝ := srgbLinear ((c : ℝ) / 255)

/-- Relative luminance `l_bg` of an RGB triple (source line 584). -/
noncomputable def relLuminance (r g b : ℕ) : ℝ :=
  0.2126 * rlChan r + 0.7152 * rlChan g + 0.0722 * rlChan b

/-- WCAG contrast ratio of two luminances (the inner `contrast` of
`_fg_for_bg`, source lines 589-591). -/
noncomputable def wcagContrast (l1 l2 : ℝ) : ℝ :=
  (max l1 l2 + 0.05) / (min l1 l2 + 0.05)

/-- Embedding of `_fg_for_bg(rgb)` on an RGB triple (source lines
558-598): white when the background luminance is below 0.45, otherwise
whichever of white and black has the not-smaller contrast ratio (ties to
white, as in the source's `>=`). -/
noncomputable def fgForBg (rgb : ℕ × ℕ × ℕ) : ℕ × ℕ × ℕ :=
  let l := relLuminance rgb.1 rgb.2.1 rgb.2.2
  if l < 0.45 then (255, 255, 255)
  else if wcagContrast l 1 ≥ wcagContrast l 0 then (255, 255, 255) else (0, 0, 0)

/-! ### Concrete instances used by the counterexample theorems -/

/-- Concrete font metrics for counterexamples: character count as pixel
width, constant line height 10. -/
def cexCtx : FontCtx := ⟨String.length, fun _ => 10, String.length, fun _ => 10, 12⟩

/-- The C1 layout parameters: inner width 30, no icon slot, no gap. -/
def cexParams : RowParams := ⟨14, 4, 30, 0, 0, 2⟩

/-- The C1 event: a 24-character two-word name, no time, no tags. -/
def cexEvent : EventRec := { name := some ("aaaaaaaaaaa bbbbbbbbbbbb") }

/-- The C5 event: a valid date and name, but `tags = [42]` (a non-dict
entry). -/
def badTagEvent : EventRec :=
  { date := some ("2025-01-01"), name := some ("x"), tags := [TagEntry.notDict] }

/-- A well-formed single event used by witnesses of the placement
theorems. -/
def goodEvent : EventRec := { date := some ("2025-01-01"), name := some ("x") }

/-- The packing-loop invariant used for C9: the per-column top list keeps
its length, every placed box fits above the bottom limit and lies (plus
the gap) above its column's running top, and any two boxes in the same
column are separated by at least the gap in placement order. -/
def placeInv (limit gap columns : Nat) (st : PlaceState) : Prop :=
  st.tops.length = columns ∧
  (∀ p ∈ st.placed,
    p.col < columns ∧ p.y + p.h ≤ limit ∧ p.y + p.h + gap ≤ st.tops.getD p.col 0) ∧
  List.Pairwise (fun p q => p.col = q.col → p.y + p.h + gap ≤ q.y) st.placed

/-! ## Claim C1

`_measure_row_height` vs. the draw-pass advance of
`render_events_section`.  The two call sites do NOT agree: the measure
pass wraps into `text_avail = max(8, inner_w - left_reserved)` (source
line 735) while the draw pass wraps into
`max_text_width = inner_w - left_reserved - 8` (source line 1069, the
"small safety margin").  The 8px difference changes the wrap point, the
line count, and therefore the row height. -/

/-- C1: the measure pass and the draw pass disagree on the very same event
under the very same layout parameters.  With 30px of inner width the
24px-wide name fits the measure pass's one line (`text_avail = 30`, row
height 20), but the draw pass only offers `max_text_width = 30 - 8 = 22`,
wraps the name onto two lines and advances the cursor by 26. -/
theorem measure_row_height_ne_render_advance :
    measureRowHeight cexCtx cexParams cexEvent = .ok 20 ∧
    renderRowAdvance cexCtx cexParams cexEvent = .ok 26 := by
  decide

/-! ## Claim C2

The word loop of `_wrap_text_to_lines`: on overflow of a non-empty
current line the source executes `lines.append(cur); cur = ""` — the
overflowing word is discarded instead of starting the next line. -/

/-- C2: with character-count widths, `max_width = 2` and `max_lines = 3`,
wrapping `"aa bb"` yields `["aa"]`: the word `"bb"` (which fits a line of
its own) is silently dropped when it overflows the line `"aa"`, instead of
starting the second line as the claim states. -/
theorem wrap_drops_overflow_word :
    wrapTextToLines String.length ("aa bb") 2 3 = .ok [("aa")] ∧
    ("aa bb").length ≤ 3 * 2 ∧ ("bb").length ≤ 2 := by
  decide

/-! ## Claim C5

`render_calendar` CAN raise: the first-line tag measurement loop of the
draw pass (`t.get("text")`, source line 1095) has no exception handler, so
one non-dict entry in an event's `tags` list aborts the whole render with
`AttributeError` — the measure pass caught the very same error and fell
back (source lines 263-266). -/

/-- C5: on an 800×480 canvas with default options, the measure pass
recovers from the bad tag entry (fallback row height, box height 58) and
places the day-box, but the draw pass then raises `AttributeError` out of
`render_calendar` instead of returning a bitmap. -/
theorem render_calendar_raises_on_bad_tag :
    measureBoxHeightForDate cexCtx (rowParamsOf 800 {}) 26 8 8 48 [badTagEvent] = 58 ∧
    renderCalendarPlacements cexCtx [badTagEvent] 800 480 8 {} =
      [⟨"2025-01-01", 0, 3, 58⟩] ∧
    renderCalendarExc cexCtx [badTagEvent] 800 480 8 {} = .error ("AttributeError") := by
  decide

/-! ## Claim C7 : `_ellipsize` -/

/-- Helper for C7/C4: every result of the trimming loop fits `maxWidth`
provided the bare ellipsis does — each `t + "…"` is returned only after
the explicit width check, and the terminal case returns the ellipsis. -/
theorem ellipsizeLoop_width_le (widthF : String → Nat) (maxWidth : Nat)
    (hell : widthF ellStr ≤ maxWidth) :
    ∀ cs : List Char, widthF (ellipsizeLoop widthF maxWidth cs) ≤ maxWidth := by
  intro cs
  induction cs with
  | nil => simpa [ellipsizeLoop] using hell
  | cons c rest ih =>
    by_cases hfit : widthF (String.mk rest.reverse ++ ellStr) ≤ maxWidth
    · simpa [ellipsizeLoop, hfit]
    · simpa [ellipsizeLoop, hfit] using ih

/-- Helper for C7: when not even the ellipsis fits and widths are
monotone over the prefix of the ellipsis, every trim test fails and the
loop falls through to the bare ellipsis. -/
theorem ellipsizeLoop_eq_ell (widthF : String → Nat) (maxWidth : Nat)
    (hmono : ∀ t : String, widthF ellStr ≤ widthF (t ++ ellStr))
    (hover : maxWidth < widthF ellStr) :
    ∀ cs : List Char, ellipsizeLoop widthF maxWidth cs = ellStr := by
  intro cs
  induction cs with
  | nil => simp [ellipsizeLoop]
  | cons c rest ih =>
    have hfail : ¬ widthF (String.mk rest.reverse ++ ellStr) ≤ maxWidth := by
      have := hmono (String.mk rest.reverse)
      omega
    simpa [ellipsizeLoop, hfail] using ih

/-- C7: behavior of `_ellipsize(s, font, w)`.
(i) When the ellipsis alone fits within `w`, the result's measured width
is at most `w`.  (ii) A string that already fits is returned unchanged.
(iii) When even the ellipsis does not fit (and the text itself does not
fit, so the trim loop runs), the bare ellipsis is returned — stated under
the property of real text metrics that a string ending in the ellipsis is
at least as wide as the ellipsis alone. -/
theorem ellipsize_spec (widthF : String → Nat) (s : String) (w : Nat) :
    (widthF ellStr ≤ w → widthF (ellipsizeFn widthF s w) ≤ w) ∧
    (widthF s ≤ w → ellipsizeFn widthF s w = s) ∧
    ((∀ t : String, widthF ellStr ≤ widthF (t ++ ellStr)) →
      w < widthF ellStr → w < widthF s → ellipsizeFn widthF s w = ellStr) := by
  refine ⟨?_, ?_, ?_⟩
  · intro hell
    by_cases hfit : widthF s ≤ w
    · simpa [ellipsizeFn, hfit]
    · simpa [ellipsizeFn, hfit] using
        ellipsizeLoop_width_le widthF w hell s.data.reverse
  · intro hfit
    simp [ellipsizeFn, hfit]
  · intro hmono hell hs
    have hfit : ¬ widthF s ≤ w := by omega
    simpa [ellipsizeFn, hfit] using
      ellipsizeLoop_eq_ell widthF w hmono hell s.data.reverse

/-- C7 witness: with character-count widths and `w = 3`, the ellipsis
(one character) fits, so `_ellipsize("abcdef", 3)` measures at most 3 —
and indeed equals `"ab…"`. -/
theorem ellipsize_spec_witness :
    String.length (ellipsizeFn String.length ("abcdef") 3) ≤ 3 ∧
    ellipsizeFn String.length ("abcdef") 3 = ("ab…") :=
  ⟨(ellipsize_spec String.length ("abcdef") 3).1 (by decide), by decide⟩

/-! ## Claim C8 : event icons are tinted to solid black -/

/-- C8: whatever per-event color was computed and whatever the
`tint_event_icons` option says, the bitmap drawn for an event icon is the
prepared bitmap with every pixel's RGB replaced by `(0,0,0)` and its alpha
kept unchanged. -/
theorem event_icon_always_black (resolveName : String → Option (Nat × Nat × Nat))
    (prepared : Bitmap) (evColorRgb : Option (Nat × Nat × Nat))
    (tintEventIcons : Bool) :
    eventIconToDraw resolveName prepared evColorRgb tintEventIcons =
      prepared.map (fun p => ⟨0, 0, 0, p.a⟩) := by
  simp [eventIconToDraw, tintIconToColor, normalizeColorInput]

/-! ## Claim C4 : bounds of `_wrap_text_to_lines` -/

/-- C4 counterexample: with per-character width 3 and `max_width = 2`
(a single character is wider than the line), wrapping the word `"ab"`
with `max_lines = 3` returns TWO lines `["a", "b"]` whose widths are both
3 > 2 — in particular the non-last line `"a"` exceeds `max_width`,
contradicting the claim that only the last line may be over. -/
theorem wrap_nonlast_line_overwide :
    wrapTextToLines (fun s => 3 * s.length) ("ab") 2 3 = .ok [("a"), ("b")] ∧
    ¬ 3 * ("a").length ≤ 2 := by
  decide

/-- Helper for C4: all fragments emitted by the hard-break loop fit
`maxWidth`, provided every single character fits and the incoming piece
does (or is empty). -/
theorem hardBreakAux_mem_le (widthF : String → Nat) (maxWidth : Nat)
    (hchar : ∀ c : Char, widthF (String.singleton c) ≤ maxWidth) :
    ∀ (cs piece : List Char), (piece = [] ∨ widthF (String.mk piece) ≤ maxWidth) →
      ∀ l ∈ hardBreakAux widthF maxWidth cs piece, widthF l ≤ maxWidth := by
  intro cs
  induction cs with
  | nil =>
    intro piece hpiece l hl
    rcases hpiece with h | h
    · simp [hardBreakAux, h] at hl
    · rcases piece with _ | ⟨c, cs'⟩
      · simp [hardBreakAux] at hl
      · simp [hardBreakAux] at hl
        simpa [hl] using h
  | cons ch rest ih =>
    intro piece hpiece l hl
    by_cases hgrow : widthF (String.mk (piece ++ [ch])) ≤ maxWidth
    · rw [hardBreakAux, if_pos hgrow] at hl
      exact ih (piece ++ [ch]) (Or.inr hgrow) l hl
    · by_cases hemp : piece.isEmpty
      · rw [hardBreakAux, if_neg hgrow, if_pos hemp] at hl
        exact ih [ch] (Or.inr (hchar ch)) l hl
      · rw [hardBreakAux, if_neg hgrow, if_neg hemp] at hl
        rcases List.mem_cons.mp hl with rfl | hl'
        · rcases hpiece with h | h
          · simp [h] at hemp
          · exact h
        · exact ih [ch] (Or.inr (hchar ch)) l hl'

/-- Helper for C4: the word loop preserves "all committed lines fit and
the current line fits or is empty" (given that single characters fit, for
the hard-break case). -/
theorem wrapLoop_inv (widthF : String → Nat) (maxWidth maxLines : Nat)
    (hchar : ∀ c : Char, widthF (String.singleton c) ≤ maxWidth) :
    ∀ (ws lines : List String) (cur : String),
      (∀ l ∈ lines, widthF l ≤ maxWidth) →
      (cur = "" ∨ widthF cur ≤ maxWidth) →
      (∀ l ∈ (wrapLoop widthF maxWidth maxLines ws lines cur).1, widthF l ≤ maxWidth) ∧
      ((wrapLoop widthF maxWidth maxLines ws lines cur).2 = "" ∨
        widthF (wrapLoop widthF maxWidth maxLines ws lines cur).2 ≤ maxWidth) := by
  intro ws
  induction ws with
  | nil => intro lines cur hl hc; exact ⟨hl, hc⟩
  | cons w rest ih =>
    intro lines cur hl hc
    rw [wrapLoop]
    set candidate := if cur = "" then w else pyStrip (cur ++ " " ++ w) with hcand
    set next : List String × String :=
      if widthF candidate ≤ maxWidth then (lines, candidate)
      else if cur = "" then (lines ++ hardBreak widthF maxWidth w, "")
      else (lines ++ [cur], "") with hnext
    have hnl : ∀ l ∈ next.1, widthF l ≤ maxWidth := by
      rw [hnext]
      split
      · exact hl
      · split
        · intro l hmem
          rcases List.mem_append.mp hmem with h | h
          · exact hl l h
          · exact hardBreakAux_mem_le widthF maxWidth hchar w.data [] (Or.inl rfl) l h
        · intro l hmem
          rcases List.mem_append.mp hmem with h | h
          · exact hl l h
          · rcases List.mem_singleton.mp h with rfl
            rcases hc with h' | h'
            · simp_all
            · exact h'
    have hnc : next.2 = "" ∨ widthF next.2 ≤ maxWidth := by
      rw [hnext]
      split
      · right; assumption
      · split
        · left; rfl
        · left; rfl
    split
    · exact ⟨hnl, hnc⟩
    · exact ih next.1 next.2 hnl hnc

/-- C4 (amended): whenever `_wrap_text_to_lines` returns (it raises
`IndexError` for `max_lines = 0` on non-empty text), it returns at most
`maxLines` lines; and PROVIDED every single-character string — the
ellipsis included — fits within `maxWidth`, every returned line has
measured width at most `maxWidth` (the last line being ellipsized when the
count reaches `maxLines` and it is still over).  Without the proviso a
hard-broken fragment other than the last line may exceed `maxWidth`
(`wrap_nonlast_line_overwide`). -/
theorem wrap_at_most_and_fits (widthF : String → Nat) (text : String)
    (maxWidth maxLines : Nat) (ls : List String)
    (hok : wrapTextToLines widthF text maxWidth maxLines = .ok ls) :
    ls.length ≤ maxLines ∧
    ((∀ c : Char, widthF (String.singleton c) ≤ maxWidth) →
      ∀ l ∈ ls, widthF l ≤ maxWidth) := by
  rw [wrapTextToLines] at hok
  by_cases hempty : text = ""
  · rw [if_pos hempty] at hok
    cases hok
    exact ⟨Nat.zero_le _, fun _ l hl => absurd hl (List.not_mem_nil l)⟩
  · rw [if_neg hempty] at hok
    set st := wrapLoop widthF maxWidth maxLines (pySplit text) [] "" with hst
    set lines1 := if st.2 ≠ "" ∧ st.1.length < maxLines then st.1 ++ [st.2] else st.1
      with hlines1
    set lines2 := if maxLines < lines1.length then lines1.take maxLines else lines1
      with hlines2
    have hlen2 : lines2.length ≤ maxLines := by
      rw [hlines2]
      split
      · simpa using Nat.min_le_left maxLines lines1.length
      · omega
    have hmem2 : ∀ hchar : (∀ c : Char, widthF (String.singleton c) ≤ maxWidth),
        ∀ l ∈ lines2, widthF l ≤ maxWidth := by
      intro hchar l hl
      have hinv := wrapLoop_inv widthF maxWidth maxLines hchar (pySplit text) [] ""
        (fun l hl => absurd hl (List.not_mem_nil l)) (Or.inl rfl)
      have hl1 : l ∈ lines1 := by
        rw [hlines2] at hl
        revert hl
        split
        · exact fun hl => List.take_subset maxLines lines1 hl
        · exact id
      rw [hlines1] at hl1
      revert hl1
      split
      · intro hl1
        rcases List.mem_append.mp hl1 with h | h
        · exact hinv.1 l h
        · rcases List.mem_singleton.mp h with rfl
          rcases hinv.2 with h' | h'
          · simp_all
          · exact h'
      · intro hl1
        exact hinv.1 l hl1
    by_cases hfull : lines2.length = maxLines
    · rw [if_pos hfull] at hok
      rcases hlast : lines2.getLast? with _ | last
      · rw [hlast] at hok
        cases hok
      · rw [hlast] at hok
        simp only at hok
        have hne : lines2 ≠ [] := by
          intro h
          rw [h] at hlast
          simp at hlast
        by_cases hover : maxWidth < widthF last
        · rw [if_pos hover] at hok
          cases hok
          show (lines2.dropLast ++ [ellipsizeFn widthF last maxWidth]).length ≤ maxLines ∧
            ((∀ c : Char, widthF (String.singleton c) ≤ maxWidth) →
              ∀ l ∈ lines2.dropLast ++ [ellipsizeFn widthF last maxWidth], widthF l ≤ maxWidth)
          constructor
          · have hz : lines2.length ≠ 0 := fun h => hne (List.eq_nil_of_length_eq_zero h)
            simp [List.length_dropLast]
            omega
          · intro hchar l hl
            rcases List.mem_append.mp hl with h | h
            · exact hmem2 hchar l (List.dropLast_subset lines2 h)
            · rcases List.mem_singleton.mp h with rfl
              have hell : widthF ellStr ≤ maxWidth := hchar '…'
              exact (ellipsize_spec widthF last maxWidth).1 hell
        · rw [if_neg hover] at hok
          cases hok
          exact ⟨hlen2, fun hchar => hmem2 hchar⟩
    · rw [if_neg hfull] at hok
      cases hok
      exact ⟨hlen2, fun hchar => hmem2 hchar⟩

/-- C4 witness: a concrete instance of `wrap_at_most_and_fits` —
`"hello world"` wrapped at width 5 into at most 2 lines gives lines that
number at most 2 and all fit width 5 (character-count metrics, where every
single character has width 1 ≤ 5). -/
theorem wrap_at_most_and_fits_witness :
    (wrapTextToLines String.length ("hello world") 5 2 = .ok [("hello")]) ∧
    ([("hello")] : List String).length ≤ 2 ∧
    ∀ l ∈ [("hello")], String.length l ≤ 5 := by
  refine ⟨by decide, ?_, ?_⟩
  · exact (wrap_at_most_and_fits String.length ("hello world") 5 2 [("hello")]
      (by decide)).1
  · exact (wrap_at_most_and_fits String.length ("hello world") 5 2 [("hello")]
      (by decide)).2 (fun c => by simp [String.singleton])

/-! ## Claim C3 : the column scan and placement step of `render_calendar` -/

/-- Helper for C3: a successful scan starting at `c` with `rem` remaining
columns returns the FIRST index at which the box fits. -/
theorem colScanAux_some (tops : List Nat) (h limit : Nat) :
    ∀ (rem c c' : Nat), colScanAux tops h limit c rem = some c' →
      c ≤ c' ∧ c' < c + rem ∧ tops.getD c' 0 + h ≤ limit ∧
      ∀ i, c ≤ i → i < c' → limit < tops.getD i 0 + h := by
  intro rem
  induction rem with
  | zero => intro c c' hscan; simp [colScanAux] at hscan
  | succ r ih =>
    intro c c' hscan
    rw [colScanAux] at hscan
    by_cases hfit : tops.getD c 0 + h ≤ limit
    · rw [if_pos hfit] at hscan
      cases hscan
      exact ⟨Nat.le_refl c, by omega, hfit, fun i h1 h2 => absurd (Nat.lt_of_le_of_lt h1 h2) (Nat.lt_irrefl c)⟩
    · rw [if_neg hfit] at hscan
      obtain ⟨h1, h2, h3, h4⟩ := ih (c + 1) c' hscan
      refine ⟨by omega, by omega, h3, fun i hi1 hi2 => ?_⟩
      rcases Nat.eq_or_lt_of_le hi1 with rfl | hlt
      · omega
      · exact h4 i hlt hi2

/-- Helper for C3: a failed scan means no remaining column has room. -/
theorem colScanAux_none (tops : List Nat) (h limit : Nat) :
    ∀ (rem c : Nat), colScanAux tops h limit c rem = none →
      ∀ i, c ≤ i → i < c + rem → limit < tops.getD i 0 + h := by
  intro rem
  induction rem with
  | zero => intro c _ i h1 h2; omega
  | succ r ih =>
    intro c hscan i h1 h2
    rw [colScanAux] at hscan
    by_cases hfit : tops.getD c 0 + h ≤ limit
    · rw [if_pos hfit] at hscan; cases hscan
    · rw [if_neg hfit] at hscan
      rcases Nat.eq_or_lt_of_le h1 with rfl | hlt
      · omega
      · exact ih (c + 1) hscan i hlt (by omega)

/-- Helper for C3/C9: characterization of `colScan = some c`. -/
theorem colScan_some (tops : List Nat) (h limit cur columns c : Nat)
    (hscan : colScan tops h limit cur columns = some c) :
    cur ≤ c ∧ c < columns ∧ tops.getD c 0 + h ≤ limit ∧
    ∀ i, cur ≤ i → i < c → limit < tops.getD i 0 + h := by
  obtain ⟨h1, h2, h3, h4⟩ := colScanAux_some tops h limit (columns - cur) cur c hscan
  exact ⟨h1, by omega, h3, h4⟩

/-- Helper for C3: characterization of `colScan = none`. -/
theorem colScan_none (tops : List Nat) (h limit cur columns : Nat)
    (hscan : colScan tops h limit cur columns = none) :
    ∀ i, cur ≤ i → i < columns → limit < tops.getD i 0 + h := by
  intro i h1 h2
  exact colScanAux_none tops h limit (columns - cur) cur hscan i h1 (by omega)

/-- Helper for C3: the current-column pointer never moves left in one
step. -/
theorem place_step_cur_le (limit gap columns : Nat) (st : PlaceState)
    (x : String × Nat) : st.cur ≤ (placeStep limit gap columns st x).cur := by
  rw [placeStep]
  cases hscan : colScan st.tops x.2 limit st.cur columns with
  | none => exact Nat.le_refl _
  | some c => exact (colScan_some st.tops x.2 limit st.cur columns c hscan).1

/-- C3: behavior of one iteration of the placement loop, plus monotonicity
of the current-column pointer over the whole loop.
(i) When the scan finds a column `c`, then `c` is the first column at or
after the current one whose running top plus the box height fits above the
bottom limit, the box is recorded at `(c, top_c)`, that column's top
advances by `h + gap`, and the pointer moves to `c` (never leftward).
(ii) When no column at or after the current one has room, the date is
dropped: the state — placements included — is unchanged and no exception
is raised (the step is a total function).
(iii) Over any sequence of dates the pointer never decreases. -/
theorem place_step_spec (limit gap columns : Nat) (st : PlaceState)
    (d : String) (h : Nat) :
    (∀ c, colScan st.tops h limit st.cur columns = some c →
      st.cur ≤ c ∧ c < columns ∧ st.tops.getD c 0 + h ≤ limit ∧
      (∀ i, st.cur ≤ i → i < c → limit < st.tops.getD i 0 + h) ∧
      placeStep limit gap columns st (d, h) =
        ⟨st.tops.set c (st.tops.getD c 0 + h + gap), c,
          st.placed ++ [⟨d, c, st.tops.getD c 0, h⟩]⟩) ∧
    (colScan st.tops h limit st.cur columns = none →
      (∀ i, st.cur ≤ i → i < columns → limit < st.tops.getD i 0 + h) ∧
      placeStep limit gap columns st (d, h) = st) ∧
    (∀ l : List (String × Nat), st.cur ≤ (placeFold limit gap columns l st).cur) := by
  refine ⟨?_, ?_, ?_⟩
  · intro c hscan
    obtain ⟨h1, h2, h3, h4⟩ := colScan_some st.tops h limit st.cur columns c hscan
    refine ⟨h1, h2, h3, h4, ?_⟩
    rw [placeStep]
    rw [hscan]
  · intro hscan
    refine ⟨colScan_none st.tops h limit st.cur columns hscan, ?_⟩
    rw [placeStep]
    rw [hscan]
  · have key : ∀ (l : List (String × Nat)) (s : PlaceState),
        s.cur ≤ (placeFold limit gap columns l s).cur := by
      intro l
      induction l with
      | nil => intro s; exact Nat.le_refl _
      | cons x t iht =>
        intro s
        exact Nat.le_trans (place_step_cur_le limit gap columns s x)
          (iht (placeStep limit gap columns s x))
    intro l
    exact key l st

/-- C3 witness: concrete instance — from tops `[3, 3]`, pointer 0, limit
100, a box of height 50 lands in column 0 at `y = 3` and the column top
advances to `3 + 50 + 5 = 58`. -/
theorem place_step_spec_witness :
    placeStep 100 5 2 ⟨[3, 3], 0, []⟩ (("2025-01-01"), 50) =
      ⟨[58, 3], 0, [⟨"2025-01-01", 0, 3, 50⟩]⟩ := by
  have hc := (place_step_spec 100 5 2 ⟨[3, 3], 0, []⟩ ("2025-01-01") 50).1 0 (by decide)
  exact hc.2.2.2.2

/-! ## Claim C9 : placed day-boxes are pairwise disjoint and on-canvas -/

/-- Helper: `getD` after `set` at the same (in-range) index. -/
theorem getD_set_self (l : List Nat) (i v : Nat) (hi : i < l.length) :
    (l.set i v).getD i 0 = v := by
  simp [List.getD_eq_getElem?_getD, List.getElem?_set_self, hi]

/-- Helper: `getD` after `set` at a different index. -/
theorem getD_set_ne (l : List Nat) (i j v : Nat) (hij : i ≠ j) :
    (l.set i v).getD j 0 = l.getD j 0 := by
  simp [List.getD_eq_getElem?_getD, List.getElem?_set_ne, hij]

/-- Helper for C9: one placement step preserves the packing invariant. -/
theorem place_step_inv (limit gap columns : Nat) (st : PlaceState)
    (x : String × Nat) (hinv : placeInv limit gap columns st) :
    placeInv limit gap columns (placeStep limit gap columns st x) := by
  obtain ⟨hlen, hbound, hpair⟩ := hinv
  rw [placeStep]
  cases hscan : colScan st.tops x.2 limit st.cur columns with
  | none => exact ⟨hlen, hbound, hpair⟩
  | some c =>
    obtain ⟨hc1, hc2, hc3, _⟩ := colScan_some st.tops x.2 limit st.cur columns c hscan
    have hclen : c < st.tops.length := by omega
    refine ⟨by simp [List.length_set, hlen], ?_, ?_⟩
    · intro p hp
      rcases List.mem_append.mp hp with hmem | hmem
      · obtain ⟨hp1, hp2, hp3⟩ := hbound p hmem
        refine ⟨hp1, hp2, ?_⟩
        by_cases hcol : c = p.col
        · rw [← hcol] at hp3 ⊢
          rw [getD_set_self st.tops c _ hclen]
          omega
        · rw [getD_set_ne st.tops c p.col _ hcol]
          exact hp3
      · rcases List.mem_singleton.mp hmem with rfl
        refine ⟨hc2, hc3, ?_⟩
        rw [getD_set_self st.tops c _ hclen]
    · rw [List.pairwise_append]
      refine ⟨hpair, List.pairwise_singleton _ _, ?_⟩
      intro p hp q hq
      rcases List.mem_singleton.mp hq with rfl
      intro hcol
      dsimp only at hcol ⊢
      obtain ⟨_, _, hp3⟩ := hbound p hp
      rw [hcol] at hp3
      exact hp3

/-- Helper for C9: the packing loop preserves the invariant. -/
theorem place_fold_inv (limit gap columns : Nat) :
    ∀ (l : List (String × Nat)) (st : PlaceState),
      placeInv limit gap columns st →
      placeInv limit gap columns (placeFold limit gap columns l st) := by
  intro l
  induction l with
  | nil => intro st hst; exact hst
  | cons x t ih =>
    intro st hst
    exact ih (placeStep limit gap columns st x)
      (place_step_inv limit gap columns st x hst)

/-- Helper for C9: the initial state satisfies the invariant. -/
theorem init_place_inv (limit : Nat) (opts : RenderOpts) :
    placeInv limit opts.grid_gap opts.columns (initPlaceState opts) := by
  refine ⟨by simp [initPlaceState], ?_, ?_⟩
  · intro p hp; simp [initPlaceState] at hp
  · simp [initPlaceState]

/-- Helper for C9: with a positive grid gap, a lower column's horizontal
range ends strictly before a higher column's begins. -/
theorem colX_lt_colX (width : Nat) (opts : RenderOpts)
    (hgap : 1 ≤ opts.grid_gap) (c c' : Nat) (hcc : c < c') :
    colX width opts c + boxWidth width opts < colX width opts c' := by
  unfold colX
  have h2 : (c + 1) * (boxWidth width opts + opts.grid_gap) ≤
      c' * (boxWidth width opts + opts.grid_gap) :=
    Nat.mul_le_mul_right _ hcc
  have h3 : (c + 1) * (boxWidth width opts + opts.grid_gap) =
      c * (boxWidth width opts + opts.grid_gap) + boxWidth width opts + opts.grid_gap := by
    rw [Nat.succ_mul]; omega
  omega

/-- Helper for C9: when the canvas is wide enough for the margins and the
inter-column gaps, every column's box ends within the canvas. -/
theorem colX_add_boxWidth_le (width : Nat) (opts : RenderOpts)
    (hw : 6 + (opts.columns - 1) * opts.grid_gap ≤ width)
    (c : Nat) (hc : c < opts.columns) :
    colX width opts c + boxWidth width opts ≤ width := by
  obtain ⟨m, hm⟩ : ∃ m, opts.columns = m + 1 := ⟨opts.columns - 1, by omega⟩
  have e1 : boxWidth width opts * opts.columns ≤
      width - 6 - (opts.columns - 1) * opts.grid_gap := by
    unfold boxWidth
    exact Nat.div_mul_le_self _ _
  rw [hm] at e1 hw hc
  simp only [Nat.add_sub_cancel] at e1 hw
  have e2 : c * (boxWidth width opts + opts.grid_gap) ≤
      m * (boxWidth width opts + opts.grid_gap) :=
    Nat.mul_le_mul_right _ (by omega)
  have e3 : m * (boxWidth width opts + opts.grid_gap) =
      m * boxWidth width opts + m * opts.grid_gap := Nat.mul_add _ _ _
  have e5 : boxWidth width opts * (m + 1) =
      boxWidth width opts * m + boxWidth width opts := Nat.mul_succ _ _
  have e6 : m * boxWidth width opts = boxWidth width opts * m := Nat.mul_comm _ _
  unfold colX
  omega

/-- C9: in every render with a positive grid gap, the recorded day-boxes
are pairwise disjoint and vertically on-canvas: every box's column index
is in range and its bottom edge obeys `y + h ≤ height - 3`; two boxes of
the same column, in placement order, are separated by at least the grid
gap; boxes of different columns occupy disjoint horizontal pixel ranges;
and (when the canvas accommodates the margins and inter-column gaps) each
box's right edge stays within the canvas width. -/
theorem calendar_placements_disjoint (ctx : FontCtx) (events : List EventRec)
    (width height days : Nat) (opts : RenderOpts) (hgap : 1 ≤ opts.grid_gap) :
    (∀ p ∈ renderCalendarPlacements ctx events width height days opts,
      p.col < opts.columns ∧ p.y + p.h ≤ height - 3) ∧
    List.Pairwise (fun p q => p.col = q.col → p.y + p.h + opts.grid_gap ≤ q.y)
      (renderCalendarPlacements ctx events width height days opts) ∧
    (∀ p ∈ renderCalendarPlacements ctx events width height days opts,
      ∀ q ∈ renderCalendarPlacements ctx events width height days opts,
      p.col ≠ q.col →
        colX width opts p.col + boxWidth width opts < colX width opts q.col ∨
        colX width opts q.col + boxWidth width opts < colX width opts p.col) ∧
    (6 + (opts.columns - 1) * opts.grid_gap ≤ width →
      ∀ p ∈ renderCalendarPlacements ctx events width height days opts,
        colX width opts p.col + boxWidth width opts ≤ width) := by
  have hinv := place_fold_inv (height - 3) opts.grid_gap opts.columns
    ((orderedDates events days).map fun d =>
      (d, measureBoxHeightForDate ctx (rowParamsOf width opts) opts.box_header_height
            opts.box_top_padding opts.box_bottom_padding opts.min_box_height
            (groupGet events d)))
    (initPlaceState opts) (init_place_inv (height - 3) opts)
  have hps : ∀ p ∈ renderCalendarPlacements ctx events width height days opts,
      p.col < opts.columns ∧ p.y + p.h ≤ height - 3 :=
    fun p hp => ⟨(hinv.2.1 p hp).1, (hinv.2.1 p hp).2.1⟩
  refine ⟨hps, hinv.2.2, ?_, ?_⟩
  · intro p hp q hq hne
    rcases Nat.lt_or_ge p.col q.col with hlt | hge
    · exact Or.inl (colX_lt_colX width opts hgap p.col q.col hlt)
    · have hlt : q.col < p.col := by omega
      exact Or.inr (colX_lt_colX width opts hgap q.col p.col hlt)
  · intro hw p hp
    exact colX_add_boxWidth_le width opts hw p.col (hps p hp).1

/-- C9 witness: a concrete render (one event, 800×480, default options)
whose single placed box is in column 0 with bottom edge `3 + 62 ≤ 477`. -/
theorem calendar_placements_disjoint_witness :
    (⟨"2025-01-01", 0, 3, 62⟩ : Placement).col < (({} : RenderOpts)).columns ∧
    (⟨"2025-01-01", 0, 3, 62⟩ : Placement).y + (⟨"2025-01-01", 0, 3, 62⟩ : Placement).h ≤ 480 - 3 :=
  (calendar_placements_disjoint cexCtx [goodEvent] 800 480 8 {} (by decide)).1
    ⟨"2025-01-01", 0, 3, 62⟩ (by decide)

/-! ## Claim C10 : at most `days` day-boxes, from the sorted-key prefix -/

/-- Helper for C10: the dates recorded by the packing loop form a sublist
of the dates already placed followed by the processed input dates — each
input date yields at most one placement, in order. -/
theorem place_fold_dates_sublist (limit gap columns : Nat) :
    ∀ (l : List (String × Nat)) (st : PlaceState),
      ((placeFold limit gap columns l st).placed.map (fun p => p.date)).Sublist
        (st.placed.map (fun p => p.date) ++ l.map Prod.fst) := by
  intro l
  induction l with
  | nil =>
    intro st
    simpa [placeFold] using List.Sublist.refl (st.placed.map (fun p => p.date))
  | cons x t ih =>
    intro st
    have step := ih (placeStep limit gap columns st x)
    have hbridge : ((placeStep limit gap columns st x).placed.map (fun p => p.date) ++
        t.map Prod.fst).Sublist
        (st.placed.map (fun p => p.date) ++ (x :: t).map Prod.fst) := by
      rw [placeStep]
      cases colScan st.tops x.2 limit st.cur columns with
      | none =>
        simp only [List.map_cons]
        exact List.Sublist.append_left
          (List.Sublist.cons x.1 (List.Sublist.refl (t.map Prod.fst))) _
      | some c =>
        simp only [List.map_append, List.map_cons, List.map_nil, List.append_assoc]
        exact List.Sublist.append_left (List.Sublist.refl _) _
    exact List.Sublist.trans step hbridge

/-- C10: `render_calendar` keeps only the first `days` date keys in
ascending lexicographic order and renders at most that many day-boxes:
the placement count is at most `days`, the ordered date list is a sorted
selection (of length at most `days`) of the grouped event dates, every
placement's date belongs to it, and an event whose date is outside the
prefix contributes no placement — regardless of free grid space. -/
theorem calendar_at_most_days (ctx : FontCtx) (events : List EventRec)
    (width height days : Nat) (opts : RenderOpts) :
    (renderCalendarPlacements ctx events width height days opts).length ≤ days ∧
    (orderedDates events days).length ≤ days ∧
    List.Sorted (fun a b : String => a ≤ b) (orderedDates events days) ∧
    (∀ d ∈ orderedDates events days, d ∈ groupKeys events) ∧
    (∀ p ∈ renderCalendarPlacements ctx events width height days opts,
      p.date ∈ orderedDates events days) ∧
    (∀ ev ∈ events, eventDate ev ∉ orderedDates events days →
      ∀ p ∈ renderCalendarPlacements ctx events width height days opts,
        p.date ≠ eventDate ev) := by
  have hsub := place_fold_dates_sublist (height - 3) opts.grid_gap opts.columns
    ((orderedDates events days).map fun d =>
      (d, measureBoxHeightForDate ctx (rowParamsOf width opts) opts.box_header_height
            opts.box_top_padding opts.box_bottom_padding opts.min_box_height
            (groupGet events d)))
    (initPlaceState opts)
  have hsub' : ((renderCalendarPlacements ctx events width height days opts).map
      (fun p => p.date)).Sublist (orderedDates events days) := by
    have h0 := hsub
    simp only [initPlaceState, List.map_nil, List.nil_append, List.map_map] at h0
    rw [show (Prod.fst ∘ fun d => (d, measureBoxHeightForDate ctx (rowParamsOf width opts)
        opts.box_header_height opts.box_top_padding opts.box_bottom_padding
        opts.min_box_height (groupGet events d))) = id from rfl, List.map_id] at h0
    exact h0
  have hlen : (renderCalendarPlacements ctx events width height days opts).length ≤ days := by
    have h1 := hsub'.length_le
    rw [List.length_map] at h1
    exact Nat.le_trans h1 (by simpa [orderedDates] using
      (List.take_sublist days _).length_le)
  have hodlen : (orderedDates events days).length ≤ days := by
    simpa [orderedDates] using Nat.min_le_left days _
  have hsorted : List.Sorted (fun a b : String => a ≤ b) (orderedDates events days) := by
    have hs := List.sorted_insertionSort (fun a b : String => a ≤ b) (groupKeys events)
    exact List.Pairwise.sublist (List.take_sublist days _) hs
  have hkeys : ∀ d ∈ orderedDates events days, d ∈ groupKeys events := by
    intro d hd
    have hd' : d ∈ List.insertionSort (fun a b : String => a ≤ b) (groupKeys events) :=
      List.take_subset days _ hd
    exact (List.perm_insertionSort (fun a b : String => a ≤ b) (groupKeys events)).mem_iff.mp hd'
  have hmem : ∀ p ∈ renderCalendarPlacements ctx events width height days opts,
      p.date ∈ orderedDates events days := by
    intro p hp
    exact hsub'.subset (List.mem_map_of_mem (fun p => p.date) hp)
  refine ⟨hlen, hodlen, hsorted, hkeys, hmem, ?_⟩
  intro ev _ hnot p hp heq
  exact hnot (heq ▸ hmem p hp)

/-- C10 witness: a concrete instance — one event renders one placed box
(at most 8), and its date is among the ordered dates. -/
theorem calendar_at_most_days_witness :
    (renderCalendarPlacements cexCtx [goodEvent] 800 480 8 {}).length ≤ 8 ∧
    (("2025-01-01") ∈ orderedDates [goodEvent] 8) :=
  ⟨(calendar_at_most_days cexCtx [goodEvent] 800 480 8 {}).1,
    (calendar_at_most_days cexCtx [goodEvent] 800 480 8 {}).2.2.2.2.1
      ⟨"2025-01-01", 0, 3, 62⟩ (by decide)⟩

/-! ## Claim C6 : `_fg_for_bg` -/

/-- Helper for C6: the linearized value of channel 0 is 0 (the `c ≤
0.03928` branch). -/
theorem rlChan_zero : rlChan 0 = 0 := by
  unfold rlChan srgbLinear
  norm_num

/-- Helper for C6: the linearized value of channel 255 is 1 (the gamma
branch at `v = 1`). -/
theorem rlChan_255 : rlChan 255 = 1 := by
  unfold rlChan srgbLinear
  rw [if_neg (by norm_num)]
  have hbase : (((255 : ℕ) : ℝ) / 255 + 0.055) / 1.055 = 1 := by norm_num
  rw [hbase, Real.one_rpow]

/-- Helper for C6: black has relative luminance 0. -/
theorem relLuminance_black : relLuminance 0 0 0 = 0 := by
  unfold relLuminance
  rw [rlChan_zero]
  ring

/-- Helper for C6: white has relative luminance 1
(`0.2126 + 0.7152 + 0.0722 = 1`). -/
theorem relLuminance_white : relLuminance 255 255 255 = 1 := by
  unfold relLuminance
  rw [rlChan_255]
  norm_num

/-- Helper for C6: pure red has relative luminance `0.2126`. -/
theorem relLuminance_red : relLuminance 255 0 0 = 0.2126 := by
  unfold relLuminance
  rw [rlChan_255, rlChan_zero]
  norm_num

/-- C6: `_fg_for_bg` returns white for every background whose relative
luminance (sRGB linearization with threshold 0.03928, gamma segment
`((c+0.055)/1.055)^2.4`, weights 0.2126/0.7152/0.0722) is below 0.45, and
otherwise whichever of white and black has the higher WCAG contrast ratio
`(L_lighter+0.05)/(L_darker+0.05)`; in particular it returns white for
black and red backgrounds and black for a white background. -/
theorem fg_for_bg_spec :
    (∀ r g b : ℕ, relLuminance r g b < 0.45 → fgForBg (r, g, b) = (255, 255, 255)) ∧
    (∀ r g b : ℕ, 0.45 ≤ relLuminance r g b →
      fgForBg (r, g, b) =
        if wcagContrast (relLuminance r g b) 1 ≥ wcagContrast (relLuminance r g b) 0
        then (255, 255, 255) else (0, 0, 0)) ∧
    fgForBg (0, 0, 0) = (255, 255, 255) ∧
    fgForBg (255, 255, 255) = (0, 0, 0) ∧
    fgForBg (255, 0, 0) = (255, 255, 255) := by
  have hthr : ∀ r g b : ℕ, relLuminance r g b < 0.45 →
      fgForBg (r, g, b) = (255, 255, 255) := by
    intro r g b h
    simp [fgForBg, h]
  have helse : ∀ r g b : ℕ, 0.45 ≤ relLuminance r g b →
      fgForBg (r, g, b) =
        if wcagContrast (relLuminance r g b) 1 ≥ wcagContrast (relLuminance r g b) 0
        then (255, 255, 255) else (0, 0, 0) := by
    intro r g b h
    have hnot : ¬ relLuminance r g b < 0.45 := not_lt.mpr h
    simp [fgForBg, hnot, wcagContrast]
  refine ⟨hthr, helse, ?_, ?_, ?_⟩
  · exact hthr 0 0 0 (by rw [relLuminance_black]; norm_num)
  · rw [helse 255 255 255 (by rw [relLuminance_white]; norm_num)]
    rw [relLuminance_white]
    rw [if_neg]
    unfold wcagContrast
    norm_num
  · exact hthr 255 0 0 (by rw [relLuminance_red]; norm_num)

/-- C6 witness: a near-black grey (10,10,10) is below the luminance
threshold, so the chooser returns white. -/
theorem fg_for_bg_spec_witness : fgForBg (10, 10, 10) = (255, 255, 255) :=
  fg_for_bg_spec.1 10 10 10 (by
    unfold relLuminance rlChan srgbLinear
    rw [if_pos (by norm_num)]
    norm_num)

end Inkyframe
